import Mathlib

/-!
Verification development for the symfit curve-fitting library
(single source file symfit/core/fit.py).

The development shallowly embeds the data model and the operations of the
source file: Python floats are modelled as sign-magnitude binary64 ordinals
decoded into rationals, numpy arrays as shape/data pairs of rationals,
symbolic expressions as an AST over Variable and Parameter atoms, and the
fallible paths (signature binding, the bounded solver call, type asserts)
as Except values.  Modules of the repository that are imported by fit.py
but whose source is not available (symfit.core.support,
symfit.core.leastsqbound, symfit.core.argument) are modelled from the
specification; each such definition is marked in its doc comment.
-/

set_option maxRecDepth 4000

namespace Symfit

/-! ## Binary64 floating point values

The source computes parameter bounds with numpy float operations
(np.nextafter).  Finite IEEE-754 binary64 values are modelled in
sign-magnitude ordinal form: a sign bit together with the natural number
whose binary digits are the exponent and fraction fields.  Consecutive
magnitudes are consecutive representable magnitudes, which is exactly the
property nextafter steps along.  The decoding into an exact rational is
given by fval below. -/

/-- A binary64 value in sign-magnitude ordinal form: magnitude
m = e * 2^52 + f encodes the biased exponent e and fraction f. -/
structure FP where
  sign : Bool
  mag : Nat
  deriving DecidableEq

/-- Integer significand of a magnitude: f for subnormals (e = 0),
2^52 + f for normals. -/
def sigOf (m : Nat) : Nat :=
  if m / 2 ^ 52 = 0 then m % 2 ^ 52 else 2 ^ 52 + m % 2 ^ 52

/-- Scale exponent of a magnitude (subnormals share the scale of the
lowest normal binade). -/
def expOf (m : Nat) : Nat :=
  max (m / 2 ^ 52) 1

/-- The magnitude of a binary64 value as a natural number scaled by
2^1075: value = natMagVal / 2^1075. -/
def natMagVal (m : Nat) : Nat :=
  sigOf m * 2 ^ expOf m

/-- Exact rational value of a binary64 value. -/
def fval (x : FP) : ℚ :=
  (if x.sign then (-1 : ℚ) else 1) * ((natMagVal x.mag : ℚ) / ((2 ^ 1075 : ℕ) : ℚ))

/-- Modelled from the spec: np.nextafter(x, 0) from the numeric array
dependency (section 6), the representable value adjacent to x in the
direction of zero.  On the ordinal form this decrements the magnitude;
nextafter(0, 0) is 0 itself. -/
def nextafterZero (x : FP) : FP :=
  if x.mag = 0 then ⟨false, 0⟩ else ⟨x.sign, x.mag - 1⟩

/-- The binary64 value 1.0 (biased exponent 1023, zero fraction). -/
def fpOne : FP := ⟨false, 1023 * 2 ^ 52⟩

/-- The binary64 value 2.0 (biased exponent 1024, zero fraction). -/
def fpTwo : FP := ⟨false, 1024 * 2 ^ 52⟩

/-- The binary64 value -2.0. -/
def fpNegTwo : FP := ⟨true, 1024 * 2 ^ 52⟩

/-- The representable value adjacent to -2.0 in the direction of zero. -/
def fpNegTwoPred : FP := ⟨true, 1024 * 2 ^ 52 - 1⟩

/-! ## Symbolic arguments and expressions

symfit.core.argument is not under src/.  Modelled from the spec
(sections 3 and 4.1): a Parameter is a named symbolic scalar carrying
value (default 1.0), min, max (default unbounded) and fixed (default
false); a Variable is a named symbolic scalar.  Expressions are sympy
trees whose atoms are Variables and Parameters. -/

/-- Modelled from the spec: symfit.core.argument.Parameter (module missing
from src/), a named symbolic scalar with numeric metadata value, min, max
and a fixed flag. -/
structure Parameter where
  name : String
  value : FP := fpOne
  min : Option FP := none
  max : Option FP := none
  fixed : Bool := false
  deriving DecidableEq

/-- A sympy expression tree over Variable and Parameter atoms.  The
operations are the ones the source builds: sums, differences, products,
quotients, natural powers and square roots. -/
inductive Expr where
  | const (q : ℚ)
  | var (name : String)
  | param (p : Parameter)
  | add (a b : Expr)
  | sub (a b : Expr)
  | mul (a b : Expr)
  | div (a b : Expr)
  | pow (a : Expr) (n : Nat)
  | sqrtE (a : Expr)
  deriving DecidableEq

/-- Helper: concatenation of the images of a list under a list-valued
function. -/
def concatMapL {α β : Type} (f : α → List β) : List α → List β
  | [] => []
  | a :: as => f a ++ concatMapL f as

/-- Free Variable names of an expression, deduplicated (a set in the
source). -/
def varsOf : Expr → List String
  | .const _ => []
  | .var nm => [nm]
  | .param _ => []
  | .add a b => (varsOf a ++ varsOf b).dedup
  | .sub a b => (varsOf a ++ varsOf b).dedup
  | .mul a b => (varsOf a ++ varsOf b).dedup
  | .div a b => (varsOf a ++ varsOf b).dedup
  | .pow a _ => varsOf a
  | .sqrtE a => varsOf a

/-- Free Parameter atoms of an expression, deduplicated (a set in the
source). -/
def paramsOf : Expr → List Parameter
  | .const _ => []
  | .var _ => []
  | .param p => [p]
  | .add a b => (paramsOf a ++ paramsOf b).dedup
  | .sub a b => (paramsOf a ++ paramsOf b).dedup
  | .mul a b => (paramsOf a ++ paramsOf b).dedup
  | .div a b => (paramsOf a ++ paramsOf b).dedup
  | .pow a _ => paramsOf a
  | .sqrtE a => paramsOf a

/-- Modelled from the spec: symfit.core.support.seperate_symbols (module
missing from src/), which partitions the free symbols of an expression
into the Variables and the Parameters, by symbol type, returning two
unordered collections (section 4.2). -/
def seperate_symbols (e : Expr) : List String × List Parameter :=
  (varsOf e, paramsOf e)

/-- Strict lexicographic comparison of character lists, the computable
mirror of the lexicographic order on List Char. -/
def charLtb : List Char → List Char → Bool
  | [], [] => false
  | [], _ :: _ => true
  | _ :: _, [] => false
  | a :: as, b :: bs => if a < b then true else if b < a then false else charLtb as bs

/-- Alphabetical comparison of strings (the Python string order used by
sorted), computed structurally on the character data.  strLeB a b is
true exactly when a ≤ b; see strLeB_iff. -/
def strLeB (a b : String) : Bool :=
  ! charLtb b.data a.data

/-- Alphabetical insertion sort on strings (Python sorted). -/
def sortStr (l : List String) : List String :=
  l.insertionSort (fun a b => strLeB a b = true)

/-- Insertion sort of Parameters by name (Python sorted with
key=lambda symbol: symbol.name). -/
def sortParams (l : List Parameter) : List Parameter :=
  l.insertionSort (fun p q => strLeB p.name q.name = true)

/-- Model wraps the model_dict mapping each dependent variable name to its
defining expression (Model._init_from_dict keeps it on self).  The keys
are assumed distinct, as they are for a Python dict. -/
structure Model where
  model_dict : List (String × Expr)
  deriving DecidableEq

/-- Dependent variable names: sorted(model_dict.keys(), key=name), from
Model._init_from_dict.  Keys of a dict are unique, hence the dedup. -/
def Model.dependent_vars (M : Model) : List String :=
  sortStr (M.model_dict.map Prod.fst).dedup

/-- Parameters of the model: the union over all expressions of the
Parameter parts of seperate_symbols, sorted by name
(Model._init_from_dict). -/
def Model.params (M : Model) : List Parameter :=
  sortParams (concatMapL (fun kv => (seperate_symbols kv.2).2) M.model_dict).dedup

/-- Independent variables of the model: the union over all expressions of
the Variable parts of seperate_symbols, sorted by name
(Model._init_from_dict). -/
def Model.independent_vars (M : Model) : List String :=
  sortStr (concatMapL (fun kv => (seperate_symbols kv.2).1) M.model_dict).dedup

/-- Name of the synthesized uncertainty Variable of a dependent variable
(Model._init_from_dict sigmas). -/
def sigmaName (nm : String) : String :=
  "sigma_" ++ nm

/-- Model.vars: independent variables, then dependent variables, then
their sigma variables, in that fixed order. -/
def Model.vars (M : Model) : List String :=
  M.independent_vars ++ M.dependent_vars ++ M.dependent_vars.map sigmaName

/-- Model.chi_squared: sum over the model_dict items of
((y - f) / sigma_y)^2, written as in the source:
(y - f)^2 / sigma_y^2, starting from Python sum initial value 0. -/
def Model.chi_squared (M : Model) : Expr :=
  M.model_dict.foldl
    (fun acc kv =>
      Expr.add acc
        (Expr.div (Expr.pow (Expr.sub (Expr.var kv.1) kv.2) 2)
          (Expr.pow (Expr.var (sigmaName kv.1)) 2)))
    (Expr.const 0)

/-- Model.chi: square root of chi_squared. -/
def Model.chi (M : Model) : Expr :=
  Expr.sqrtE M.chi_squared

/-- Symbolic derivative with respect to a Parameter atom (sympy.diff).
Matching of the atom is sympy symbol equality. -/
def diffE (p : Parameter) : Expr → Expr
  | .const _ => .const 0
  | .var _ => .const 0
  | .param q => if q = p then .const 1 else .const 0
  | .add a b => .add (diffE p a) (diffE p b)
  | .sub a b => .sub (diffE p a) (diffE p b)
  | .mul a b => .add (.mul (diffE p a) b) (.mul a (diffE p b))
  | .div a b => .div (.sub (.mul (diffE p a) b) (.mul a (diffE p b))) (.pow b 2)
  | .pow a n => .mul (.mul (.const n) (.pow a (n - 1))) (diffE p a)
  | .sqrtE a => .div (diffE p a) (.mul (.const 2) (.sqrtE a))

/-- Model.jacobian: the derivative of chi with respect to each parameter,
one entry per parameter in params order. -/
def Model.jacobian (M : Model) : List Expr :=
  M.params.map (fun p => diffE p M.chi)

/-- Numeric evaluation of an expression.  sq is the square-root primitive
of the numeric backend (floating point, hence supplied as an oracle);
env binds symbol names to values. -/
def evalE (sq : ℚ → ℚ) (env : String → ℚ) : Expr → ℚ
  | .const q => q
  | .var nm => env nm
  | .param p => env p.name
  | .add a b => evalE sq env a + evalE sq env b
  | .sub a b => evalE sq env a - evalE sq env b
  | .mul a b => evalE sq env a * evalE sq env b
  | .div a b => evalE sq env a / evalE sq env b
  | .pow a n => evalE sq env a ^ n
  | .sqrtE a => sq (evalE sq env a)

/-- Positional binding of a name list to a value list: the value of a name
is the entry of args at the position of the name. -/
def posLookup : List String → List ℚ → String → ℚ
  | [], _, _ => 0
  | _ :: _, [], _ => 0
  | n :: ns, a :: as, nm => if n = nm then a else posLookup ns as nm

/-- Modelled from the spec: symfit.core.support.sympy_to_py (module
missing from src/), which compiles an expression against ordered symbol
lists into a callable taking exactly that positional argument shape, all
variables first, then all parameters (section 4.2). -/
def sympy_to_py (e : Expr) (vars : List String) (params : List Parameter) :
    (ℚ → ℚ) → List ℚ → ℚ :=
  fun sq args => evalE sq (posLookup (vars ++ params.map Parameter.name) args) e

/-- Model.numerical_chi_squared: chi_squared compiled against
(vars, params). -/
def Model.numerical_chi_squared (M : Model) : (ℚ → ℚ) → List ℚ → ℚ :=
  sympy_to_py M.chi_squared M.vars M.params

/-- Model.numerical_chi: chi compiled against (vars, params). -/
def Model.numerical_chi (M : Model) : (ℚ → ℚ) → List ℚ → ℚ :=
  sympy_to_py M.chi M.vars M.params

/-- Model.numerical_jacobian: every jacobian component compiled against
(vars, params). -/
def Model.numerical_jacobian (M : Model) : List ((ℚ → ℚ) → List ℚ → ℚ) :=
  M.jacobian.map (fun component => sympy_to_py component M.vars M.params)

/-- One entry of Model.bounds: (nextafter(value, 0), value) for a fixed
parameter, (min, max) otherwise. -/
def boundEntry (p : Parameter) : Option FP × Option FP :=
  if p.fixed then (some (nextafterZero p.value), some p.value) else (p.min, p.max)

/-- Model.bounds: one (low, high) pair per parameter in params order. -/
def Model.bounds (M : Model) : List (Option FP × Option FP) :=
  M.params.map boundEntry

/-! ## Numpy arrays

LeastSquares._flatten manipulates numpy ndarrays through shape, reshape
and transpose.  An ndarray is modelled as its shape together with its
row-major data; reshape keeps the row-major data, transpose reverses the
axes and permutes the data accordingly. -/

/-- A numpy ndarray: shape and row-major data.  Well-formed arrays have
data.length = shape.prod. -/
structure NDA where
  shape : List Nat
  data : List ℚ
  deriving DecidableEq

/-- All multi-indices of a shape, in row-major order. -/
def multiIndices : List Nat → List (List Nat)
  | [] => [[]]
  | n :: rest => concatMapL (fun i => (multiIndices rest).map (fun ix => i :: ix)) (List.range n)

/-- Row-major flat index of a multi-index for a shape. -/
def flatIdx : List Nat → List Nat → Nat
  | _ :: rest, i :: irest => i * rest.prod + flatIdx rest irest
  | _, _ => 0

/-- Numpy transpose (the .T attribute): the axes are reversed; the entry
of the result at a multi-index is the entry of the argument at the
reversed multi-index. -/
def transposeA (a : NDA) : NDA :=
  ⟨a.shape.reverse,
   (multiIndices a.shape.reverse).map (fun ix => a.data.getD (flatIdx a.shape ix.reverse) 0)⟩

/-- Numpy reshape(M, -1): row-major data unchanged, the second dimension
is inferred from the size. -/
def reshapeTo2 (a : NDA) (m : Nat) : NDA :=
  ⟨[m, a.shape.prod / m], a.data⟩

/-- Numpy reshape(-1): flatten to one dimension, row-major data
unchanged. -/
def reshape1 (a : NDA) : NDA :=
  ⟨[a.shape.prod], a.data⟩

/-- Last element of a list (the shape subscript -1). -/
def lastElem : List Nat → Option Nat
  | [] => none
  | [a] => some a
  | _ :: b :: rest => lastElem (b :: rest)

/-- All but the last element of a list (the shape slice excluding the last
axis). -/
def dropLastL : List Nat → List Nat
  | [] => []
  | [_] => []
  | a :: b :: rest => a :: dropLastL (b :: rest)

/-- LeastSquares._flatten on an ndarray pair, with nvars the length of
self.model.vars.  Mirrors the source branch for branch: the dimension
check raise, the 1-D passthrough, the row-major branch
(x.T.reshape(nvars, -1) and y.T.reshape(-1)), the column-major branch
(x.reshape(nvars, -1) and y.reshape(-1)), and the final shape-mismatch
raise. -/
def flattenXY (nvars : Nat) (x y : NDA) : Except String (NDA × NDA) :=
  if ¬ (nvars ∈ x.shape) ∧ x.shape.length ≠ 1 then
    .error "number of vars does not match the shape of the input x data."
  else if x.shape.length = 1 then
    if x.shape ≠ y.shape then
      .error "x and y must have the same shape."
    else
      .ok (x, y)
  else if lastElem x.shape = some nvars ∧ dropLastL x.shape = y.shape then
    .ok (reshapeTo2 (transposeA x) nvars, reshape1 (transposeA y))
  else if x.shape.head? = some nvars ∧ x.shape.tail = y.shape then
    .ok (reshapeTo2 x nvars, reshape1 y)
  else
    .error "For multidimensional data, the first or the last dimension of xdata is expected to represent the different variables, and the shape of the remaining dimensions should match that of ydata."

/-- LeastSquares._flatten: the variable count is len(self.model.vars). -/
def LeastSquares.flatten (M : Model) (x y : NDA) : Except String (NDA × NDA) :=
  flattenXY M.vars.length x y

/-! ## Data binding in BaseFit

BaseFit.__init__ builds an inspect.Signature whose parameters are the
names of Model.vars, with default 1 for sigma names and default None
otherwise, binds the user args and kwargs against it, fills in the
defaults, and splits the sigma entries out of the resulting ordered
mapping.  Data values are Python objects; the ones that matter here are
None, int, float and numpy array. -/

/-- A Python value bound to a model variable. -/
inductive PyData where
  | pyNone
  | pyInt (n : Int)
  | pyFloat (q : ℚ)
  | pyArr (l : List ℚ)
  deriving DecidableEq

/-- The test value is not 1 of the source.  This is Python object
identity against the literal int 1: a user-supplied int 1 is the cached
small-int object and compares identical; every other object (another int,
any float, any array, None) does not. -/
def isNotIntOne (d : PyData) : Bool :=
  decide (d ≠ PyData.pyInt 1)

/-- The sigma value differs, as a value, from the default scalar 1: the
reading of the claim text.  For an array this asks whether some entry
differs from 1. -/
def differsFromOne : PyData → Bool
  | .pyInt n => n ≠ 1
  | .pyFloat q => q ≠ 1
  | .pyArr l => l.any (fun q => q ≠ 1)
  | .pyNone => true

/-- Character-list test that the first list is an initial segment of the
second. -/
def charsPre : List Char → List Char → Bool
  | [], _ => true
  | _ :: _, [] => false
  | a :: as, b :: bs => a = b && charsPre as bs

/-- The test name.startswith(sigma_) of the source, computed on the
character data of the string. -/
def isSigmaName (nm : String) : Bool :=
  charsPre "sigma_".data nm.data

/-- Default value of a bound parameter:
1 if name.startswith(sigma_) else None. -/
def defaultFor (nm : String) : PyData :=
  if isSigmaName nm then .pyInt 1 else .pyNone

/-- First-match keyword lookup (Python dict access; keys are unique). -/
def lookupKw : List (String × PyData) → String → Option PyData
  | [], _ => none
  | kv :: rest, nm => if kv.1 = nm then some kv.2 else lookupKw rest nm

/-- The ordered mapping produced by signature.bind plus the default-filling
loop: positional arguments consume the leading parameter names, then the
keyword-bound names follow in parameter order, then the defaulted names in
parameter order. -/
def boundArguments (varNames : List String) (args : List PyData)
    (kwargs : List (String × PyData)) : List (String × PyData) :=
  (varNames.take args.length).zip args
    ++ (varNames.drop args.length).filterMap
        (fun nm => (lookupKw kwargs nm).map (fun v => (nm, v)))
    ++ ((varNames.drop args.length).filter (fun nm => (lookupKw kwargs nm).isNone)).map
        (fun nm => (nm, defaultFor nm))

/-- Binding failures raised by signature.bind. -/
inductive BindErr where
  | tooManyArguments
  | unexpectedKeyword
  | multipleValues
  deriving DecidableEq

/-- The state BaseFit.__init__ leaves behind: the non-sigma data mapping,
the sigma mapping, and the resolved absolute_sigma flag. -/
structure BaseFitState where
  data : List (String × PyData)
  sigmas : List (String × PyData)
  absolute_sigma : Bool
  deriving DecidableEq

/-- The state a successful BaseFit.__init__ computes: the sigma entries
are popped out of the bound data by name test, and absolute_sigma is the
explicit argument if given, else True exactly when the loop over
self.sigmas finds a value that is not the int 1. -/
def mkBaseFitState (M : Model) (args : List PyData) (kwargs : List (String × PyData))
    (absolute_sigma : Option Bool) : BaseFitState :=
  let bound := boundArguments M.vars args kwargs
  { data := bound.filter (fun kv => ¬ isSigmaName kv.1)
    sigmas := bound.filter (fun kv => isSigmaName kv.1)
    absolute_sigma :=
      match absolute_sigma with
      | some b => b
      | none => (bound.filter (fun kv => isSigmaName kv.1)).any
          (fun kv => isNotIntOne kv.2) }

/-- BaseFit.__init__: bind args and kwargs to Model.vars names (the
guards are the TypeErrors signature.bind raises), fill defaults, pop the
sigma entries into self.sigmas, and resolve absolute_sigma. -/
def BaseFit.init (M : Model) (args : List PyData) (kwargs : List (String × PyData))
    (absolute_sigma : Option Bool) : Except BindErr BaseFitState :=
  if M.vars.length < args.length then
    .error .tooManyArguments
  else if kwargs.any (fun kv => ¬ M.vars.contains kv.1) then
    .error .unexpectedKeyword
  else if kwargs.any (fun kv => (M.vars.take args.length).contains kv.1) then
    .error .multipleValues
  else
    .ok (mkBaseFitState M args kwargs absolute_sigma)

/-- Names a construction call actually supplies a value for: the leading
parameter names consumed positionally plus the keyword names. -/
def suppliedNames (varNames : List String) (args : List PyData)
    (kwargs : List (String × PyData)) : List String :=
  varNames.take args.length ++ kwargs.map Prod.fst

/-! ## The bounded solver call and NumericalLeastSquares.execute

symfit.core.leastsqbound is not under src/.  Modelled from the spec
(section 4.3): the solver takes the residual function, initial guess,
bounds and optionally an analytic Jacobian, and returns in full-output
form the fitted vector, a covariance-like matrix (possibly absent), a
diagnostics mapping containing fvec and nfev, a status message and an
integer code; a Jacobian evaluating to not-a-number values makes the call
fail with a ValueError.  execute is embedded against a solver oracle,
invoked with a flag recording whether the analytic Jacobian (Dfun) is
supplied, so that the try/except retry logic of the source is the object
of study. -/

/-- Python exceptions surfaced by the embedded paths. -/
inductive PyErr where
  | valueError
  | typeError
  | indexError
  | keyError
  | attributeError
  deriving DecidableEq

/-- Full output of leastsqbound (spec section 4.3): popt, cov_x, the
diagnostics fields fvec and nfev, the status message and integer code. -/
structure SolverOut where
  popt : List ℚ
  cov_x : Option (List (List ℚ))
  fvec : List ℚ
  nfev : Nat
  mesg : String
  ier : Int
  deriving DecidableEq

/-- The FitResults object NumericalLeastSquares.execute constructs. -/
structure FitResultsE where
  params : List Parameter
  popt : List ℚ
  pcov : Option (List (List ℚ))
  fvec : List ℚ
  nfev : Nat
  mesg : String
  ier : Int
  ydata : Option PyData
  sigma : Option (List ℚ)
  deriving DecidableEq

/-- Python len() of a bound data value; only arrays have a length. -/
def pyLen : PyData → Except PyErr Nat
  | .pyArr l => .ok l.length
  | _ => .error .typeError

/-- Sum of squares of the residual vector, np.sum(fvec ** 2). -/
def ssRes (fvec : List ℚ) : ℚ :=
  fvec.foldl (fun acc q => acc + q * q) 0

/-- The post-processing of NumericalLeastSquares.execute: the covariance
rescale by the residual variance when absolute_sigma is false (with
degrees of freedom read from the data of dependent_vars[0]), and the
FitResults construction with
ydata = list(self.data.values())[0] if there is exactly one dependent
variable else None.  Division of the float ss_res by zero degrees of
freedom would give a float infinity; that corner is outside the rational
model and outside every claim. -/
def buildFitResults (M : Model) (data : List (String × PyData))
    (absolute_sigma : Bool) (out : SolverOut) : Except PyErr FitResultsE := do
  let s_sq : ℚ ←
    if absolute_sigma then
      pure (1 : ℚ)
    else do
      let depName ←
        match M.dependent_vars.head? with
        | some nm => pure nm
        | none => Except.error PyErr.indexError
      let depData ←
        match lookupKw data depName with
        | some v => pure v
        | none => Except.error PyErr.keyError
      let n ← pyLen depData
      pure (ssRes out.fvec / ((n : ℚ) - (out.popt.length : ℚ)))
  let pcov := out.cov_x.map (fun rows => rows.map (fun row => row.map (fun q => q * s_sq)))
  let ydata : Option PyData ←
    if M.dependent_vars.length = 1 then
      match data.head? with
      | some kv => pure (some kv.2)
      | none => Except.error PyErr.indexError
    else
      pure none
  pure
    { params := M.params
      popt := out.popt
      pcov := pcov
      fvec := out.fvec
      nfev := out.nfev
      mesg := out.mesg
      ier := out.ier
      ydata := ydata
      sigma := none }

/-- NumericalLeastSquares.execute: call the solver with the analytic
Jacobian (flag true); on ValueError retry exactly once without it
(flag false); any other failure, and any failure of the retry,
propagates.  The second component records the solver invocations made,
in order, by their with-Jacobian flag. -/
def NumericalLeastSquares.execute (M : Model) (data : List (String × PyData))
    (absolute_sigma : Bool) (solver : Bool → Except PyErr SolverOut) :
    Except PyErr FitResultsE × List Bool :=
  match solver true with
  | .ok out => (buildFitResults M data absolute_sigma out, [true])
  | .error .valueError =>
    (match solver false with
     | .ok out => buildFitResults M data absolute_sigma out
     | .error e => .error e, [true, false])
  | .error e => (.error e, [true])

/-! ## Minimize and Maximize

Minimize.error branches on
if x != np.array([]) and y != np.array([]).  Under numpy semantics the
comparison of an array of shape (n,) against the empty array of shape
(0,) broadcasts to an empty boolean array when n is 0 or 1 (an empty
array is falsy), and for n at least 2 the shapes are incompatible, the
elementwise comparison is abandoned, and the expression falls back to
object identity, yielding the scalar True.  The truthiness of the
comparison is therefore exactly 2 <= n, which npNeqEmpty captures. -/

/-- Truth value of the numpy expression arr != np.array([]) for a 1-D
array: True exactly when the array has at least two entries (see the
section comment). -/
def npNeqEmpty (l : List ℚ) : Bool :=
  2 ≤ l.length

/-- Minimize.error: func(x, p) - y under the truthy branch, func(x, p)
alone otherwise.  The subtraction is numpy elementwise subtraction. -/
def Minimize.error (p : List ℚ) (func : List ℚ → List ℚ → List ℚ)
    (x y : List ℚ) : List ℚ :=
  if npNeqEmpty x ∧ npNeqEmpty y then
    (func x p).zipWith (fun a b => a - b) y
  else
    func x p

/-- Maximize.error: the negation of the inherited Minimize.error. -/
def Maximize.error (p : List ℚ) (func : List ℚ → List ℚ → List ℚ)
    (x y : List ℚ) : List ℚ :=
  (Minimize.error p func x y).map Neg.neg

/-- Python attribute lookup of eval_jacobian on the Minimize inheritance
chain.  In the live source neither Minimize nor BaseFit defines
eval_jacobian (a definition exists only inside the large commented-out
block), so the lookup fails: the constant is none. -/
def Minimize.eval_jacobian_lookup :
    Option (List ℚ → (List ℚ → List ℚ → List ℚ) → List ℚ → List ℚ → List ℚ) :=
  none

/-- Maximize.eval_jacobian: negate the result of
super().eval_jacobian(p, func, x, y).  The attribute lookup on the parent
chain fails (see Minimize.eval_jacobian_lookup), which in Python is an
AttributeError raised before any negation happens. -/
def Maximize.eval_jacobian (p : List ℚ) (func : List ℚ → List ℚ → List ℚ)
    (x y : List ℚ) : Except PyErr (List ℚ) :=
  match Minimize.eval_jacobian_lookup with
  | some f => .ok ((f p func x y).map Neg.neg)
  | none => .error .attributeError

/-! ## Constraint translation in Minimize.get_constraints -/

/-- The class of a symbolic relational constraint: the six sympy
relational classes, or any other class, recorded by name. -/
inductive RelCls where
  | eq
  | gt
  | ge
  | ne
  | lt
  | le
  | other (nm : String)
  deriving DecidableEq

/-- The types dict of Minimize.get_constraints:
Eq maps to eq, Gt, Ge, Ne, Lt and Le map to ineq, and any other class is
not a key, so the subscript raises a KeyError carrying the class. -/
def constraintTypes : RelCls → Option String
  | .eq => some "eq"
  | .gt => some "ineq"
  | .ge => some "ineq"
  | .ne => some "ineq"
  | .lt => some "ineq"
  | .le => some "ineq"
  | .other _ => none

/-- Minimize.get_constraints restricted to the field the claims concern:
the scipy constraint type of each symbolic constraint, in order.  The
fun and jac closures of each constraint dict are built from the
expression compilation utilities and carry no further branching.  The
dict subscript types[constraint.__class__] raises KeyError, naming the
class, at the first constraint whose class is not a key. -/
def Minimize.get_constraints : List RelCls → Except RelCls (List String)
  | [] => .ok []
  | c :: cs =>
    match constraintTypes c with
    | some t => (Minimize.get_constraints cs).map (fun ts => t :: ts)
    | none => .error c

/-! ## FitResults construction type asserts -/

/-- Exact Python type tags relevant to the FitResults asserts.  Subclasses
(an OrderedDict for dict, a bool or numpy integer for int, a numpy
floating scalar) are distinct tags, because the source compares with
type(x) == T rather than isinstance. -/
inductive PyType where
  | dict
  | odict
  | str
  | int
  | bool
  | npint
  | npfloat
  | ndarray
  | noneTy
  deriving DecidableEq

/-- A Python object for the FitResults constructor: its exact type and an
opaque payload distinguishing objects. -/
structure PyVal where
  ty : PyType
  payload : Nat
  deriving DecidableEq

/-- The private fields of a FitResults object, each absent until the
constructor populates it. -/
structure FRFields where
  infodict : Option PyVal := none
  status_message : Option PyVal := none
  iterations : Option PyVal := none
  ydata : Option PyVal := none
  paramsSet : Bool := false
  sigma : Option PyVal := none
  deriving DecidableEq

/-- FitResults.__init__: the source asserts type(infodic) == dict, then
stores it, asserts type(mesg) == str, then stores it, asserts
type(ier) == int, then stores it, then stores ydata (its assert is
commented out), builds the ParameterDict and stores sigma.  A failing
assert abandons construction; the error value is the partial field state
at that moment, so that what was and was not yet populated is visible. -/
def FitResults.init (infodic mesg ier ydata : PyVal) (sigma : Option PyVal) :
    Except FRFields FRFields :=
  let s0 : FRFields := {}
  if infodic.ty ≠ .dict then .error s0 else
  let s1 : FRFields := { s0 with infodict := some infodic }
  if mesg.ty ≠ .str then .error s1 else
  let s2 : FRFields := { s1 with status_message := some mesg }
  if ier.ty ≠ .int then .error s2 else
  let s3 : FRFields := { s2 with iterations := some ier }
  let s4 : FRFields := { s3 with ydata := some ydata }
  let s5 : FRFields := { s4 with paramsSet := true }
  .ok { s5 with sigma := sigma }

/-! ## Concrete instances used by the closed theorems -/

/-- A plain parameter named a. -/
def pA : Parameter := { name := "a" }

/-- The model y = a * x. -/
def M1 : Model :=
  ⟨[("y", Expr.mul (Expr.param pA) (Expr.var "x"))]⟩

/-- A fixed parameter with value -2.0. -/
def pFixedNeg : Parameter := { name := "a", value := fpNegTwo, fixed := true }

/-- A fixed parameter with value 2.0. -/
def pFixedTwo : Parameter := { name := "a", value := fpTwo, fixed := true }

/-- A model whose single expression is the fixed parameter of value
-2.0. -/
def Mneg : Model := ⟨[("y", Expr.param pFixedNeg)]⟩

/-- Parameters b and c for the ordering example. -/
def pB : Parameter := { name := "b" }

/-- See pB. -/
def pC : Parameter := { name := "c" }

/-- Ordering example model: the first expression references c, x and b,
the second references a and t, so parameters first appear in the order
c, b, a and independent variables in the order x, t. -/
def Mex : Model :=
  ⟨[("y_1", Expr.add (Expr.mul (Expr.param pC) (Expr.var "x")) (Expr.param pB)),
    ("y_2", Expr.mul (Expr.param pA) (Expr.var "t"))]⟩

/-- A 3 x 5 data array: 15 entries, first dimension equal to the
variable count of M1. -/
def x7 : NDA := ⟨[3, 5], [0, 1, 2, 3, 4, 5, 6, 7, 8, 9, 10, 11, 12, 13, 14]⟩

/-- A 5-entry dependent data array. -/
def y7 : NDA := ⟨[5], [1, 2, 3, 4, 5]⟩

/-- A flat 2-entry data array. -/
def x1d : NDA := ⟨[2], [5, 6]⟩

/-- A flat 2-entry dependent data array. -/
def y1d : NDA := ⟨[2], [7, 8]⟩

/-- Positional data for constructing a fit of M1: first the independent
variable data, then the dependent variable data. -/
def args1 : List PyData := [.pyArr [1, 2, 3], .pyArr [2, 4, 6]]

/-- A successful solver outcome. -/
def out1 : SolverOut :=
  { popt := [2], cov_x := none, fvec := [0, 0, 0], nfev := 5, mesg := "ok", ier := 1 }

/-- A solver oracle that succeeds with and without the analytic
Jacobian. -/
def solverOk : Bool → Except PyErr SolverOut :=
  fun _ => .ok out1

/-- A solver oracle whose call with the analytic Jacobian fails with
ValueError (the not-a-number Jacobian case) and whose call without it
succeeds. -/
def solverNanJac : Bool → Except PyErr SolverOut :=
  fun withJac => if withJac then .error .valueError else .ok out1

/-- A compiled model function of constant value 7, of the scipy shape
(x, p). -/
def cFunc : List ℚ → List ℚ → List ℚ :=
  fun x _ => x.map (fun _ => (7 : ℚ))

/-! ## Helper lemmas -/

/-- A value that differs from 1 as a value is in particular not the
int object 1. -/
theorem differsFromOne_isNotIntOne (d : PyData) (h : differsFromOne d = true) :
    isNotIntOne d = true := by
  cases d with
  | pyInt n =>
    simp only [differsFromOne, decide_eq_true_eq] at h
    simp [isNotIntOne, h]
  | pyFloat q => simp [isNotIntOne]
  | pyArr l => simp [isNotIntOne]
  | pyNone => simp [isNotIntOne]

/-- A successful BaseFit construction yields exactly the state
mkBaseFitState describes. -/
theorem BaseFit.init_ok (M : Model) (args : List PyData)
    (kwargs : List (String × PyData)) (asig : Option Bool) (bf : BaseFitState)
    (h : BaseFit.init M args kwargs asig = .ok bf) :
    bf = mkBaseFitState M args kwargs asig := by
  unfold BaseFit.init at h
  split at h
  · exact absurd h (by simp)
  · split at h
    · exact absurd h (by simp)
    · split at h
      · exact absurd h (by simp)
      · injection h with h2
        exact h2.symm

/-- A successful keyword lookup means the name is among the keyword
names. -/
theorem lookupKw_mem_keys (kwargs : List (String × PyData)) (nm : String)
    (v : PyData) (h : lookupKw kwargs nm = some v) : nm ∈ kwargs.map Prod.fst := by
  induction kwargs with
  | nil => simp [lookupKw] at h
  | cons kv rest ih =>
    by_cases hk : kv.1 = nm
    · simp [hk]
    · simp only [lookupKw, hk, if_false] at h
      simp [ih h]

/-! ## Claim C4 -/

/-- C4: the claim states that Minimize.error(p, func, x, y) returns
func(x, p) - y whenever xdata and ydata are both non-empty.  At the
single-point data x = [5], y = [3] the code instead returns func(x, p)
unchanged: the comparison x != np.array([]) broadcasts shape (1,)
against shape (0,) to an empty boolean array, which is falsy, so the
else branch is taken.  This theorem evaluates the embedded code at that
failing input: the result is the bare model value [7], and not the
subtracted value [4] the claim requires. -/
theorem C4_minimize_error_single_point :
    Minimize.error [0] cFunc [5] [3] = cFunc [5] [0] ∧
    (cFunc [5] [0]).zipWith (fun a b => a - b) [3] = [4] ∧
    Minimize.error [0] cFunc [5] [3] ≠ [4] := by
  refine ⟨rfl, by norm_num [cFunc, List.zipWith], by decide⟩

/-! ## Claim C9 -/

/-- C9 counterexample: the claim states that Maximize.eval_jacobian is
the negation of the eval_jacobian of Minimize.  No eval_jacobian is
defined on Minimize or BaseFit in the live source, so the delegating call
inside Maximize.eval_jacobian fails with an AttributeError at every
input; at this concrete input it returns no value at all, refuting the
claimed value-level sign-flip relation for the Jacobian. -/
theorem C9_eval_jacobian_attribute_error :
    Maximize.eval_jacobian [1] cFunc [2, 3] [4, 5] = .error .attributeError := rfl

/-- C9 amended: Maximize.error is, at every input, the elementwise
negation of Minimize.error; Maximize.eval_jacobian is written to negate
the inherited eval_jacobian, but since neither Minimize nor BaseFit
defines one, every call fails with an AttributeError instead of
returning a negated Jacobian. -/
theorem C9_sign_flip_amended :
    (∀ p func x y, Maximize.error p func x y = (Minimize.error p func x y).map Neg.neg) ∧
    (∀ p func x y, Maximize.eval_jacobian p func x y = .error .attributeError) :=
  ⟨fun _ _ _ _ => rfl, fun _ _ _ _ => rfl⟩

/-! ## Claim C8 -/

/-- C8: the types dict of Minimize.get_constraints maps an equality
relation to constraint type eq and each of greater-than,
greater-or-equal, not-equal, less-than and less-or-equal to ineq; a list
of recognized constraints translates elementwise, and a relation of any
other kind makes get_constraints fail with the KeyError naming the
offending class (the first unrecognized one). -/
theorem C8_constraint_type_mapping :
    constraintTypes RelCls.eq = some "eq" ∧
    constraintTypes RelCls.gt = some "ineq" ∧
    constraintTypes RelCls.ge = some "ineq" ∧
    constraintTypes RelCls.ne = some "ineq" ∧
    constraintTypes RelCls.lt = some "ineq" ∧
    constraintTypes RelCls.le = some "ineq" ∧
    (∀ nm, constraintTypes (RelCls.other nm) = none) ∧
    (∀ cs : List RelCls, (∀ c ∈ cs, (constraintTypes c).isSome) →
      Minimize.get_constraints cs = .ok (cs.map (fun c => (constraintTypes c).getD ""))) ∧
    (∀ cs (c : RelCls), Minimize.get_constraints cs = .error c →
      c ∈ cs ∧ constraintTypes c = none) := by
  refine ⟨rfl, rfl, rfl, rfl, rfl, rfl, fun _ => rfl, ?_, ?_⟩
  · intro cs h
    induction cs with
    | nil => rfl
    | cons c rest ih =>
      have hc := h c (List.mem_cons_self c rest)
      match hcc : constraintTypes c with
      | none => rw [hcc] at hc; simp at hc
      | some t =>
        have hrest := ih (fun d hd => h d (List.mem_cons_of_mem c hd))
        simp [Minimize.get_constraints, hcc, hrest, Except.map]
  · intro cs c
    induction cs with
    | nil => intro h; simp [Minimize.get_constraints] at h
    | cons d rest ih =>
      intro h
      match hdd : constraintTypes d with
      | none =>
        simp only [Minimize.get_constraints, hdd] at h
        injection h with h2
        subst h2
        exact ⟨List.mem_cons_self d rest, hdd⟩
      | some t =>
        simp only [Minimize.get_constraints, hdd] at h
        match hr : Minimize.get_constraints rest with
        | .ok ts => rw [hr] at h; simp [Except.map] at h
        | .error e =>
          rw [hr] at h
          simp only [Except.map] at h
          injection h with h2
          subst h2
          have hres := ih hr
          exact ⟨List.mem_cons_of_mem d hres.1, hres.2⟩

/-- C8 witness: a concrete mixed list of recognized constraints
translates to its list of types. -/
theorem C8_constraint_type_mapping_witness :
    Minimize.get_constraints [RelCls.eq, RelCls.lt, RelCls.ne] =
      .ok ["eq", "ineq", "ineq"] := by
  have h := C8_constraint_type_mapping.2.2.2.2.2.2.2.1
    [RelCls.eq, RelCls.lt, RelCls.ne] (by decide)
  exact h

/-! ## Claim C10 -/

/-- C10: FitResults construction succeeds exactly when the diagnostics
mapping is exactly of dict type, the status message exactly of str type
and the status code exactly of int type; when it fails, no field has
been populated from any wrongly typed argument (each assert immediately
precedes the assignment it guards), and nothing after the failing assert
has run. -/
theorem C10_fitresults_type_asserts (infodic mesg ier ydata : PyVal)
    (sigma : Option PyVal) :
    ((∃ s, FitResults.init infodic mesg ier ydata sigma = .ok s) ↔
      (infodic.ty = .dict ∧ mesg.ty = .str ∧ ier.ty = .int)) ∧
    (∀ s, FitResults.init infodic mesg ier ydata sigma = .error s →
      (infodic.ty ≠ .dict → s.infodict = none) ∧
      (mesg.ty ≠ .str → s.status_message = none) ∧
      (ier.ty ≠ .int → s.iterations = none) ∧
      s.iterations = none ∧ s.ydata = none ∧ s.paramsSet = false ∧ s.sigma = none) := by
  unfold FitResults.init
  by_cases h1 : infodic.ty = PyType.dict
  · by_cases h2 : mesg.ty = PyType.str
    · by_cases h3 : ier.ty = PyType.int
      · simp [h1, h2, h3]
      · simp [h1, h2, h3]
    · simp [h1, h2]
  · simp [h1]

/-- C10 witness: with a diagnostics dict but a status message of a
non-string type, construction fails after populating only the infodict
field; the status message field was not populated from the ill-typed
argument. -/
theorem C10_fitresults_type_asserts_witness :
    FitResults.init ⟨.dict, 0⟩ ⟨.npfloat, 1⟩ ⟨.int, 2⟩ ⟨.ndarray, 3⟩ none =
      .error { infodict := some ⟨.dict, 0⟩ } ∧
    ({ infodict := some ⟨.dict, 0⟩ } : FRFields).status_message = none := by
  refine ⟨rfl, ?_⟩
  exact ((C10_fitresults_type_asserts ⟨.dict, 0⟩ ⟨.npfloat, 1⟩ ⟨.int, 2⟩
    ⟨.ndarray, 3⟩ none).2 _ rfl).2.1 (by decide)

/-! ## Claim C2 -/

/-- C2: when the solver call that is handed the analytic Jacobian fails
with the ValueError that not-a-number Jacobian values produce, and the
same optimization re-run without an analytic Jacobian succeeds,
NumericalLeastSquares.execute performs exactly one retry (the invocation
log is one call with the Jacobian followed by one call without it) and
returns the FitResults built from the retry output instead of
propagating the failure. -/
theorem C2_jacobian_retry (M : Model) (data : List (String × PyData)) (asig : Bool)
    (solver : Bool → Except PyErr SolverOut) (out : SolverOut) (fr : FitResultsE)
    (h1 : solver true = .error .valueError) (h2 : solver false = .ok out)
    (h3 : buildFitResults M data asig out = .ok fr) :
    NumericalLeastSquares.execute M data asig solver = (.ok fr, [true, false]) := by
  simp only [NumericalLeastSquares.execute, h1, h2, h3]

/-- C2 witness: a concrete fit of the model y = a * x whose
with-Jacobian solver call fails with ValueError and whose retry succeeds
returns the FitResults of the retry after exactly one retry. -/
theorem C2_jacobian_retry_witness :
    NumericalLeastSquares.execute M1 [("y", .pyArr [1, 2])] true solverNanJac =
      (.ok { params := M1.params, popt := [2], pcov := none, fvec := [0, 0, 0],
             nfev := 5, mesg := "ok", ier := 1, ydata := some (.pyArr [1, 2]),
             sigma := none }, [true, false]) :=
  C2_jacobian_retry M1 [("y", .pyArr [1, 2])] true solverNanJac out1 _ rfl rfl rfl

/-! ## Claim C1 -/

/-- C1: the claim states that execute() builds the FitResults with ydata
equal to the bound data of the single dependent variable.  The code
instead uses list(self.data.values())[0], the first entry of the bound
data mapping, which is the first independent variable's data whenever
independent variable data was supplied.  For the model y = a * x with
x data [1, 2, 3] and y data [2, 4, 6] bound positionally, the FitResults
carries ydata = [1, 2, 3] (the x data), while the data bound to the
single dependent variable y is [2, 4, 6].  The intent of the claim is
visible in the source itself: the degrees-of-freedom line correctly
indexes self.data by the dependent variable's name, and the field feeds
the r_squared computation against the dependent data. -/
theorem C1_ydata_selection :
    BaseFit.init M1 args1 [] none =
      .ok { data := [("x", .pyArr [1, 2, 3]), ("y", .pyArr [2, 4, 6])],
            sigmas := [("sigma_y", .pyInt 1)],
            absolute_sigma := false } ∧
    Except.map FitResultsE.ydata
        (NumericalLeastSquares.execute M1
          [("x", .pyArr [1, 2, 3]), ("y", .pyArr [2, 4, 6])] false solverOk).1 =
      .ok (some (.pyArr [1, 2, 3])) ∧
    lookupKw [("x", .pyArr [1, 2, 3]), ("y", .pyArr [2, 4, 6])] "y" =
      some (.pyArr [2, 4, 6]) ∧
    (PyData.pyArr [1, 2, 3] ≠ PyData.pyArr [2, 4, 6]) :=
  ⟨rfl, rfl, rfl, by decide⟩

/-! ## Claim C3 -/

/-- C3: for every successfully constructed BaseFit, an explicitly given
absolute_sigma is honored as-is; with no explicit argument the flag is
True when some bound sigma value differs, as a value, from the default
scalar 1, and False when no sigma name was supplied at all (every sigma
is the untouched default 1). -/
theorem C3_absolute_sigma_policy (M : Model) (args : List PyData)
    (kwargs : List (String × PyData)) (asig : Option Bool) (bf : BaseFitState)
    (h : BaseFit.init M args kwargs asig = .ok bf) :
    (∀ b, asig = some b → bf.absolute_sigma = b) ∧
    (asig = none → (∃ kv ∈ bf.sigmas, differsFromOne kv.2) → bf.absolute_sigma = true) ∧
    (asig = none →
      (∀ nm ∈ suppliedNames M.vars args kwargs, isSigmaName nm = false) →
      bf.absolute_sigma = false) := by
  have hbf := BaseFit.init_ok M args kwargs asig bf h
  subst hbf
  refine ⟨?_, ?_, ?_⟩
  · intro b hb
    subst hb
    simp [mkBaseFitState]
  · rintro hnone ⟨kv, hmem, hdiff⟩
    subst hnone
    simp only [mkBaseFitState] at hmem ⊢
    exact List.any_eq_true.mpr ⟨kv, hmem, differsFromOne_isNotIntOne kv.2 hdiff⟩
  · intro hnone hsup
    subst hnone
    simp only [mkBaseFitState]
    refine List.any_eq_false.mpr ?_
    intro kv hkv
    have hmem := List.mem_filter.mp hkv
    have hstart : isSigmaName kv.1 = true := hmem.2
    rcases List.mem_append.mp hmem.1 with hab | hc
    · rcases List.mem_append.mp hab with ha | hb
      · have hm := (List.of_mem_zip ha).1
        have := hsup kv.1 (List.mem_append_left _ hm)
        rw [this] at hstart
        exact absurd hstart (by simp)
      · obtain ⟨nm, _, hnm⟩ := List.mem_filterMap.mp hb
        obtain ⟨v, hv, hkv'⟩ := Option.map_eq_some'.mp hnm
        have hnmk : nm ∈ kwargs.map Prod.fst := lookupKw_mem_keys kwargs nm v hv
        have h1 : kv.1 = nm := by rw [← hkv']
        have := hsup nm (List.mem_append_right _ hnmk)
        rw [h1, this] at hstart
        exact absurd hstart (by simp)
    · obtain ⟨nm, _, hnm⟩ := List.mem_map.mp hc
      have h2 : kv.2 = defaultFor nm := by rw [← hnm]
      have h1 : kv.1 = nm := by rw [← hnm]
      rw [h1] at hstart
      simp [h2, defaultFor, hstart, isNotIntOne]

/-- C3 witness: constructing a fit of the model y = a * x with no
explicit absolute_sigma and a keyword sigma value 2.0 yields
absolute_sigma == True. -/
theorem C3_absolute_sigma_policy_witness :
    BaseFit.init M1 [] [("sigma_y", .pyFloat 2)] none =
      .ok { data := [("x", .pyNone), ("y", .pyNone)],
            sigmas := [("sigma_y", .pyFloat 2)],
            absolute_sigma := true } ∧
    ({ data := [("x", .pyNone), ("y", .pyNone)],
       sigmas := [("sigma_y", .pyFloat 2)],
       absolute_sigma := true } : BaseFitState).absolute_sigma = true := by
  refine ⟨rfl, ?_⟩
  exact (C3_absolute_sigma_policy M1 [] [("sigma_y", .pyFloat 2)] none
      { data := [("x", .pyNone), ("y", .pyNone)],
        sigmas := [("sigma_y", .pyFloat 2)],
        absolute_sigma := true } rfl).2.1 rfl
    ⟨("sigma_y", .pyFloat 2), by decide, by decide⟩

/-! ## Floating point order lemmas for claim C5 -/

/-- The scaled magnitude value grows strictly from one representable
magnitude to the next. -/
theorem natMagVal_lt_succ (m : Nat) : natMagVal m < natMagVal (m + 1) := by
  unfold natMagVal sigOf expOf
  rcases Nat.lt_or_ge (m % 2 ^ 52) (2 ^ 52 - 1) with hf | hf
  · have h1 : (m + 1) / 2 ^ 52 = m / 2 ^ 52 := by omega
    have h2 : (m + 1) % 2 ^ 52 = m % 2 ^ 52 + 1 := by omega
    rw [h1, h2]
    by_cases h0 : m / 2 ^ 52 = 0
    · rw [if_pos h0, if_pos h0]
      exact (mul_lt_mul_right (Nat.pos_pow_of_pos _ (by norm_num))).mpr (by omega)
    · rw [if_neg h0, if_neg h0]
      exact (mul_lt_mul_right (Nat.pos_pow_of_pos _ (by norm_num))).mpr (by omega)
  · have hf2 : m % 2 ^ 52 = 2 ^ 52 - 1 := by omega
    have h1 : (m + 1) / 2 ^ 52 = m / 2 ^ 52 + 1 := by omega
    have h2 : (m + 1) % 2 ^ 52 = 0 := by omega
    rw [h1, h2, hf2]
    by_cases h0 : m / 2 ^ 52 = 0
    · rw [h0]
      norm_num
    · have h0p : m / 2 ^ 52 + 1 ≠ 0 := by omega
      rw [if_neg h0, if_neg h0p]
      have hm1 : max (m / 2 ^ 52) 1 = m / 2 ^ 52 := Nat.max_eq_left (by omega)
      have hm2 : max (m / 2 ^ 52 + 1) 1 = m / 2 ^ 52 + 1 := Nat.max_eq_left (by omega)
      rw [hm1, hm2]
      calc (2 ^ 52 + (2 ^ 52 - 1)) * 2 ^ (m / 2 ^ 52)
          < (2 ^ 52 * 2) * 2 ^ (m / 2 ^ 52) :=
            (mul_lt_mul_right (Nat.pos_pow_of_pos _ (by norm_num))).mpr (by norm_num)
        _ = (2 ^ 52 + 0) * 2 ^ (m / 2 ^ 52 + 1) := by ring

/-- The scaled magnitude value is strictly monotone in the magnitude. -/
theorem natMagVal_strictMono : StrictMono natMagVal :=
  strictMono_nat_of_lt_succ natMagVal_lt_succ

/-- Positivity of the scale denominator. -/
theorem fpDen_pos : (0 : ℚ) < ((2 ^ 1075 : ℕ) : ℚ) := by positivity

/-- Order of positive binary64 values is the order of their
magnitudes. -/
theorem fval_false_lt_iff (m1 m2 : Nat) :
    fval ⟨false, m1⟩ < fval ⟨false, m2⟩ ↔ m1 < m2 := by
  unfold fval
  simp only [Bool.false_eq_true, if_false, one_mul]
  rw [div_lt_div_iff_of_pos_right fpDen_pos, Nat.cast_lt]
  exact natMagVal_strictMono.lt_iff_lt

/-- Weak order of positive binary64 values is the weak order of their
magnitudes. -/
theorem fval_false_le_iff (m1 m2 : Nat) :
    fval ⟨false, m1⟩ ≤ fval ⟨false, m2⟩ ↔ m1 ≤ m2 := by
  unfold fval
  simp only [Bool.false_eq_true, if_false, one_mul]
  rw [div_le_div_iff_of_pos_right fpDen_pos, Nat.cast_le]
  exact natMagVal_strictMono.le_iff_le

/-- Order of negative binary64 values is the reversed order of their
magnitudes. -/
theorem fval_true_lt_iff (m1 m2 : Nat) :
    fval ⟨true, m1⟩ < fval ⟨true, m2⟩ ↔ m2 < m1 := by
  unfold fval
  simp only [if_pos, neg_one_mul, neg_lt_neg_iff]
  rw [div_lt_div_iff_of_pos_right fpDen_pos, Nat.cast_lt]
  exact natMagVal_strictMono.lt_iff_lt

/-- A negative-sign binary64 value never exceeds a positive-sign one. -/
theorem fval_sign_le (m1 m2 : Nat) : fval ⟨true, m1⟩ ≤ fval ⟨false, m2⟩ := by
  unfold fval
  simp only [if_pos, Bool.false_eq_true, if_false, neg_one_mul, one_mul]
  have h1 : (0 : ℚ) ≤ (natMagVal m1 : ℚ) / ((2 ^ 1075 : ℕ) : ℚ) := by positivity
  have h2 : (0 : ℚ) ≤ (natMagVal m2 : ℚ) / ((2 ^ 1075 : ℕ) : ℚ) := by positivity
  linarith

/-! ## Claim C5 -/

/-- C5 counterexample: the claim states that for every fixed Parameter
the bounds entry is (largest representable value strictly below value,
value).  For the fixed parameter of value -2.0, the model built from it
has bounds entry (nextafter(-2.0, 0), -2.0), and the exact value of that
lower endpoint lies strictly above -2.0 (nextafter moves toward zero,
which for a negative value is upward), so it is not a value strictly
less than the parameter value at all. -/
theorem C5_fixed_bounds_counterexample :
    Model.bounds Mneg = [(some fpNegTwoPred, some fpNegTwo)] ∧
    fval fpNegTwo < fval fpNegTwoPred := by
  constructor
  · rfl
  · exact (fval_true_lt_iff (1024 * 2 ^ 52) (1024 * 2 ^ 52 - 1)).mpr (by norm_num)

/-- C5 amended: Model.bounds maps each parameter to its entry; a
non-fixed parameter contributes (min, max); a fixed parameter
contributes an upper endpoint of exactly its value and a lower endpoint
nextafter(value, 0), the representable neighbour of the value toward
zero.  For a fixed parameter of positive value (in particular the
claimed value 2.0) that lower endpoint is the largest representable
value strictly below the value; for a fixed parameter of negative value
it instead lies strictly above the value. -/
theorem C5_fixed_bounds_amended :
    (∀ M : Model, M.bounds = M.params.map boundEntry) ∧
    (∀ p : Parameter, p.fixed = false → boundEntry p = (p.min, p.max)) ∧
    (∀ p : Parameter, p.fixed = true → (boundEntry p).2 = some p.value) ∧
    (∀ p : Parameter, p.fixed = true → p.value.sign = false → 0 < p.value.mag →
      ∃ lb, (boundEntry p).1 = some lb ∧ fval lb < fval p.value ∧
        ∀ z : FP, fval z < fval p.value → fval z ≤ fval lb) ∧
    (∀ p : Parameter, p.fixed = true → p.value.sign = true → 0 < p.value.mag →
      ∃ lb, (boundEntry p).1 = some lb ∧ fval p.value < fval lb) := by
  refine ⟨fun _ => rfl, ?_, ?_, ?_, ?_⟩
  · intro p hp
    simp [boundEntry, hp]
  · intro p hp
    simp [boundEntry, hp]
  · intro p hp hs hm
    refine ⟨nextafterZero p.value, by simp [boundEntry, hp], ?_, ?_⟩
    · rcases hv : p.value with ⟨s, m⟩
      rw [hv] at hs hm
      simp only at hs hm
      subst hs
      rw [nextafterZero, if_neg (by simpa using Nat.pos_iff_ne_zero.mp hm)]
      simp only
      exact (fval_false_lt_iff (m - 1) m).mpr (by omega)
    · intro z hz
      rcases hv : p.value with ⟨s, m⟩
      rw [hv] at hs hm hz
      simp only at hs hm
      subst hs
      rw [nextafterZero, if_neg (by simpa using Nat.pos_iff_ne_zero.mp hm)]
      simp only
      rcases z with ⟨zs, zm⟩
      cases zs
      · have hlt : zm < m := (fval_false_lt_iff zm m).mp hz
        exact (fval_false_le_iff zm (m - 1)).mpr (by omega)
      · exact fval_sign_le zm (m - 1)
  · intro p hp hs hm
    refine ⟨nextafterZero p.value, by simp [boundEntry, hp], ?_⟩
    rcases hv : p.value with ⟨s, m⟩
    rw [hv] at hs hm
    simp only at hs hm
    subst hs
    rw [nextafterZero, if_neg (by simpa using Nat.pos_iff_ne_zero.mp hm)]
    simp only
    exact (fval_true_lt_iff m (m - 1)).mpr (by omega)

/-- C5 witness: for the fixed parameter of value 2.0 the bounds entry
has a lower endpoint that is the largest representable value strictly
below 2.0 (and, by the third conjunct of the amended theorem, the upper
endpoint is exactly 2.0). -/
theorem C5_fixed_bounds_witness :
    ∃ lb, (boundEntry pFixedTwo).1 = some lb ∧ fval lb < fval pFixedTwo.value ∧
      ∀ z : FP, fval z < fval pFixedTwo.value → fval z ≤ fval lb :=
  C5_fixed_bounds_amended.2.2.2.1 pFixedTwo rfl rfl (by norm_num [pFixedTwo, fpTwo])

/-! ## Claim C6 -/

/-- The boolean lexicographic comparison decides the lexicographic order
on character lists. -/
theorem charLtb_iff : ∀ l1 l2 : List Char, charLtb l1 l2 = true ↔ l1 < l2
  | [], [] => by
    constructor
    · intro h; simp [charLtb] at h
    · intro h; exact absurd h (lt_irrefl _)
  | [], b :: bs => by
    constructor
    · intro _; exact List.Lex.nil
    · intro _; simp [charLtb]
  | a :: as, [] => by
    constructor
    · intro h; simp [charLtb] at h
    · intro h; cases h
  | a :: as, b :: bs => by
    by_cases h1 : a < b
    · simp only [charLtb, if_pos h1]
      constructor
      · intro _; exact List.Lex.rel h1
      · intro _; trivial
    · by_cases h2 : b < a
      · simp only [charLtb, if_neg h1, if_pos h2]
        constructor
        · intro h; simp at h
        · intro h
          cases h with
          | cons htl => exact absurd h2 (lt_irrefl _)
          | rel hab => exact absurd hab h1
      · simp only [charLtb, if_neg h1, if_neg h2]
        rw [charLtb_iff as bs]
        have heq : a = b := le_antisymm (not_lt.mp h2) (not_lt.mp h1)
        subst heq
        constructor
        · intro h; exact List.Lex.cons h
        · intro h
          cases h with
          | cons htl => exact htl
          | rel hab => exact absurd hab h1

/-- The boolean string comparison decides the alphabetical order on
strings. -/
theorem strLeB_iff (a b : String) : strLeB a b = true ↔ a ≤ b := by
  rw [String.le_iff_toList_le, ← not_lt]
  constructor
  · intro h hlt
    have hc := (charLtb_iff b.data a.data).mpr hlt
    simp [strLeB, hc] at h
  · intro h
    simp only [strLeB, Bool.not_eq_true']
    cases hcb : charLtb b.data a.data
    · rfl
    · exact absurd ((charLtb_iff b.data a.data).mp hcb) h

/-- Membership in a concatMapL image. -/
theorem mem_concatMapL {α β : Type} (f : α → List β) (l : List α) (b : β) :
    b ∈ concatMapL f l ↔ ∃ a ∈ l, b ∈ f a := by
  induction l with
  | nil => simp [concatMapL]
  | cons x xs ih => simp [concatMapL, ih]

/-- C6: for every Model, params and independent_vars are sorted
alphabetically by symbol name and deduplicated, their membership is
exactly the union of the symbols of all expressions of the model_dict,
the compiled numeric functions bind their positional arguments in
vars-then-params order, every compiled function of the Model is compiled
against exactly that order, and on the example model whose parameters
first appear in the order c, b, a and whose independent variables first
appear in the order x, t, the derived lists are [a, b, c] and
[t, x]. -/
theorem C6_ordering_invariant :
    (∀ M : Model,
      List.Sorted (fun p q : Parameter => p.name ≤ q.name) M.params ∧
      M.params.Nodup ∧
      List.Sorted (· ≤ ·) M.independent_vars ∧
      M.independent_vars.Nodup) ∧
    (∀ (M : Model) (p : Parameter),
      p ∈ M.params ↔ ∃ kv ∈ M.model_dict, p ∈ (seperate_symbols kv.2).2) ∧
    (∀ (M : Model) (v : String),
      v ∈ M.independent_vars ↔ ∃ kv ∈ M.model_dict, v ∈ (seperate_symbols kv.2).1) ∧
    (∀ (M : Model) (e : Expr) (sq : ℚ → ℚ) (args : List ℚ),
      sympy_to_py e M.vars M.params sq args =
        evalE sq (posLookup (M.vars ++ M.params.map Parameter.name) args) e) ∧
    (∀ M : Model,
      M.numerical_chi = sympy_to_py M.chi M.vars M.params ∧
      M.numerical_chi_squared = sympy_to_py M.chi_squared M.vars M.params ∧
      M.numerical_jacobian =
        M.jacobian.map (fun component => sympy_to_py component M.vars M.params)) ∧
    (Mex.params.map Parameter.name = ["a", "b", "c"] ∧
      Mex.independent_vars = ["t", "x"]) := by
  have htotS : IsTotal String (fun a b => strLeB a b = true) :=
    ⟨fun a b => by
      rcases le_total a b with h | h
      · exact Or.inl ((strLeB_iff a b).mpr h)
      · exact Or.inr ((strLeB_iff b a).mpr h)⟩
  have htransS : IsTrans String (fun a b => strLeB a b = true) :=
    ⟨fun a b c hab hbc =>
      (strLeB_iff a c).mpr (le_trans ((strLeB_iff a b).mp hab) ((strLeB_iff b c).mp hbc))⟩
  have htotP : IsTotal Parameter (fun p q => strLeB p.name q.name = true) :=
    ⟨fun a b => by
      rcases le_total a.name b.name with h | h
      · exact Or.inl ((strLeB_iff a.name b.name).mpr h)
      · exact Or.inr ((strLeB_iff b.name a.name).mpr h)⟩
  have htransP : IsTrans Parameter (fun p q => strLeB p.name q.name = true) :=
    ⟨fun a b c hab hbc =>
      (strLeB_iff a.name c.name).mpr
        (le_trans ((strLeB_iff a.name b.name).mp hab) ((strLeB_iff b.name c.name).mp hbc))⟩
  refine ⟨?_, ?_, ?_, fun _ _ _ _ => rfl, fun _ => ⟨rfl, rfl, rfl⟩, by decide, by decide⟩
  · intro M
    refine ⟨?_, ?_, ?_, ?_⟩
    · exact (@List.sorted_insertionSort Parameter _ _ htotP htransP _).imp
        (fun h => (strLeB_iff _ _).mp h)
    · exact (List.perm_insertionSort _ _).nodup_iff.mpr (List.nodup_dedup _)
    · exact (@List.sorted_insertionSort String _ _ htotS htransS _).imp
        (fun h => (strLeB_iff _ _).mp h)
    · exact (List.perm_insertionSort _ _).nodup_iff.mpr (List.nodup_dedup _)
  · intro M p
    simp [Model.params, sortParams, mem_concatMapL]
  · intro M v
    simp [Model.independent_vars, sortStr, mem_concatMapL]

/-! ## List lemmas for claim C7 -/

/-- concatMapL distributes over append. -/
theorem concatMapL_append {α β : Type} (f : α → List β) (l1 l2 : List α) :
    concatMapL f (l1 ++ l2) = concatMapL f l1 ++ concatMapL f l2 := by
  induction l1 with
  | nil => simp [concatMapL]
  | cons a as ih => simp [concatMapL, ih]

/-- Length of a concatMapL image with blocks of constant length. -/
theorem length_concatMapL_const {α β : Type} (f : α → List β) (l : List α) (c : Nat)
    (h : ∀ a ∈ l, (f a).length = c) : (concatMapL f l).length = l.length * c := by
  induction l with
  | nil => simp [concatMapL]
  | cons a as ih =>
    simp only [concatMapL, List.length_append, List.length_cons]
    rw [h a (List.mem_cons_self a as), ih (fun b hb => h b (List.mem_cons_of_mem a hb))]
    ring

/-- concatMapL with singleton blocks is map. -/
theorem concatMapL_singleton {α β : Type} (g : α → β) (l : List α) :
    concatMapL (fun a => [g a]) l = l.map g := by
  induction l with
  | nil => rfl
  | cons a as ih => simp [concatMapL, ih]

/-- The multi-indices of a one-dimensional shape. -/
theorem multiIndices_one (n : Nat) :
    multiIndices [n] = (List.range n).map (fun i => [i]) := by
  have : multiIndices [n] = concatMapL (fun i => [[i]]) (List.range n) := by
    simp [multiIndices, concatMapL]
  rw [this, concatMapL_singleton]

/-- The multi-indices of a two-dimensional shape. -/
theorem multiIndices_two (m n : Nat) :
    multiIndices [m, n] =
      concatMapL (fun j => (List.range n).map (fun i => [j, i])) (List.range m) := by
  show concatMapL (fun j => (multiIndices [n]).map (fun ix => j :: ix)) (List.range m) = _
  congr 1
  funext j
  rw [multiIndices_one, List.map_map]
  rfl

/-- Indexing into a row-major grid built over ranges. -/
theorem getElem?_concatMapL_range {α : Type} (g : Nat → Nat → α) (M N j i : Nat)
    (hj : j < M) (hi : i < N) :
    (concatMapL (fun a => (List.range N).map (g a)) (List.range M))[j * N + i]? =
      some (g j i) := by
  induction M with
  | zero => omega
  | succ M ih =>
    rw [List.range_succ, concatMapL_append]
    have hlen : (concatMapL (fun a => (List.range N).map (g a)) (List.range M)).length
        = M * N := by
      rw [length_concatMapL_const _ _ N (fun a _ => by simp), List.length_range]
    by_cases hjM : j < M
    · rw [List.getElem?_append_left]
      · exact ih hjM
      · rw [hlen]
        have h1 : j * N + i < (j + 1) * N := by rw [Nat.succ_mul]; omega
        have h2 : (j + 1) * N ≤ M * N := Nat.mul_le_mul_right N (by omega)
        omega
    · have hj2 : j = M := by omega
      subst hj2
      rw [List.getElem?_append_right (by rw [hlen]; exact Nat.le_add_right _ _)]
      rw [hlen]
      have hidx : j * N + i - j * N = i := by omega
      rw [hidx]
      simp only [concatMapL, List.append_nil]
      rw [List.getElem?_map, List.getElem?_range hi]
      rfl

/-- Indexing into the multi-index list of a two-dimensional shape. -/
theorem multiIndices_pair (m n j i : Nat) (hj : j < m) (hi : i < n) :
    (multiIndices [m, n])[j * n + i]? = some [j, i] := by
  rw [multiIndices_two]
  exact getElem?_concatMapL_range (fun a b => [a, b]) m n j i hj hi

/-- Reconstructing a list from its positional reads. -/
theorem map_getD_range {α : Type} (l : List α) (d : α) :
    (List.range l.length).map (fun i => l.getD i d) = l := by
  apply List.ext_getElem?
  intro i
  rw [List.getElem?_map]
  by_cases h : i < l.length
  · rw [List.getElem?_range h]
    simp [List.getD_eq_getElem?_getD, List.getElem?_eq_getElem h]
  · rw [List.getElem?_eq_none (by simpa using h), List.getElem?_eq_none (by omega)]
    rfl

/-- Transposition of a one-dimensional array is the identity. -/
theorem transposeA_oneDim (a : NDA) (n : Nat) (hs : a.shape = [n])
    (hd : a.data.length = n) : transposeA a = a := by
  rcases a with ⟨s, d⟩
  simp only at hs hd
  subst hs
  simp only [transposeA, List.reverse_cons, List.reverse_nil, List.nil_append]
  rw [multiIndices_one, List.map_map]
  have hf : ((fun ix => d.getD (flatIdx [n] ix.reverse) 0) ∘ fun i => [i]) =
      fun i => d.getD i 0 := by
    funext i
    simp [flatIdx]
  rw [hf, ← hd, map_getD_range]

/-! ## Claim C7 -/

/-- C7 counterexample: the claim states that any shape combination other
than (x of shape (N, M) with y of shape (N,)) and (x one-dimensional
with x.shape equal to y.shape) fails with a shape mismatch.  The model
y = a * x has variable count len(model.vars) = 3 (x, y, sigma_y); the
pair x of shape (3, 5), y of shape (5,) is neither of the two accepted
claim patterns, yet _flatten accepts it through the column-major branch
and returns x reshaped in place with y flattened, not an error. -/
theorem C7_flatten_counterexample :
    M1.vars.length = 3 ∧ x7.shape = [3, 5] ∧ y7.shape = [5] ∧
    LeastSquares.flatten M1 x7 y7 = .ok (⟨[3, 5], x7.data⟩, ⟨[5], y7.data⟩) :=
  ⟨rfl, rfl, rfl, rfl⟩

/-- C7 amended: for x of shape (N, M) with M the count of model.vars and
y of shape (N,), _flatten returns x transposed (entry (j, i) of the
result is entry (i, j) of x) with shape (M, N) and y unchanged; for x of
shape (M, K) with y of shape (K,), accepted by the column-major branch
the claim omits, x and y are returned unchanged; for one-dimensional x
with x.shape equal to y.shape both pass through unchanged; every other
shape combination with x of dimension at most two fails with a
shape-mismatch error.  (Higher-dimensional x follows the same
first-or-last-dimension rule and is outside this statement.) -/
theorem C7_flatten_amended (M : Model) (x y : NDA)
    (hx : x.data.length = x.shape.prod) (hy : y.data.length = y.shape.prod) :
    (∀ N, 0 < M.vars.length → x.shape = [N, M.vars.length] → y.shape = [N] →
      ∃ x1, LeastSquares.flatten M x y = .ok (x1, y) ∧
        x1.shape = [M.vars.length, N] ∧
        ∀ j i, j < M.vars.length → i < N →
          x1.data.getD (j * N + i) 0 = x.data.getD (i * M.vars.length + j) 0) ∧
    (∀ K, 0 < M.vars.length → K ≠ M.vars.length → x.shape = [M.vars.length, K] →
      y.shape = [K] → LeastSquares.flatten M x y = .ok (x, y)) ∧
    (x.shape.length = 1 → x.shape = y.shape → LeastSquares.flatten M x y = .ok (x, y)) ∧
    (x.shape.length ≤ 2 →
      (¬ ∃ N, x.shape = [N, M.vars.length] ∧ y.shape = [N]) →
      (¬ ∃ K, x.shape = [M.vars.length, K] ∧ y.shape = [K]) →
      ¬ (x.shape.length = 1 ∧ x.shape = y.shape) →
      ∃ msg, LeastSquares.flatten M x y = .error msg) := by
  refine ⟨?_, ?_, ?_, ?_⟩
  · intro N hMv hxs hys
    have hyd : y.data.length = N := by rw [hy, hys]; simp
    have hyeq : transposeA y = y := transposeA_oneDim y N hys hyd
    have hre : reshape1 (transposeA y) = y := by
      rw [hyeq]
      rcases y with ⟨s, d⟩
      simp only at hys
      subst hys
      simp [reshape1]
    have hc1 : ¬ (¬ (M.vars.length ∈ x.shape) ∧ x.shape.length ≠ 1) := by
      rw [hxs]; simp
    have hc2 : ¬ (x.shape.length = 1) := by rw [hxs]; simp
    have hc3 : lastElem x.shape = some M.vars.length ∧ dropLastL x.shape = y.shape := by
      rw [hxs, hys]; exact ⟨rfl, rfl⟩
    refine ⟨reshapeTo2 (transposeA x) M.vars.length, ?_, ?_, ?_⟩
    · simp only [LeastSquares.flatten, flattenXY]
      rw [if_neg hc1, if_neg hc2, if_pos hc3, hre]
    · have hvk : (transposeA x).shape = [M.vars.length, N] := by
        simp [transposeA, hxs]
      simp only [reshapeTo2, hvk]
      have hp : ([M.vars.length, N] : List Nat).prod = M.vars.length * N := by simp
      rw [hp, Nat.mul_div_cancel_left _ hMv]
    · intro j i hj hi
      have hsh : x.shape.reverse = [M.vars.length, N] := by rw [hxs]; rfl
      simp only [reshapeTo2, transposeA, hsh]
      rw [List.getD_eq_getElem?_getD, List.getElem?_map, multiIndices_pair _ _ _ _ hj hi]
      simp only [Option.map_some', Option.getD_some]
      rw [hxs]
      have hflat : flatIdx [N, M.vars.length] (List.reverse [j, i]) =
          i * M.vars.length + j := by
        simp [flatIdx]
      rw [hflat]
  · intro K hMv hKne hxs hys
    have hc1 : ¬ (¬ (M.vars.length ∈ x.shape) ∧ x.shape.length ≠ 1) := by
      rw [hxs]; simp
    have hc2 : ¬ (x.shape.length = 1) := by rw [hxs]; simp
    have hc3 : ¬ (lastElem x.shape = some M.vars.length ∧ dropLastL x.shape = y.shape) := by
      rw [hxs]
      rintro ⟨hlast, -⟩
      injection hlast with hlast
      exact hKne hlast
    have hc4 : x.shape.head? = some M.vars.length ∧ x.shape.tail = y.shape := by
      rw [hxs, hys]; exact ⟨rfl, rfl⟩
    have hrx : reshapeTo2 x M.vars.length = x := by
      rcases x with ⟨s, d⟩
      simp only at hxs
      subst hxs
      simp only [reshapeTo2]
      have hp : ([M.vars.length, K] : List Nat).prod = M.vars.length * K := by simp
      rw [hp, Nat.mul_div_cancel_left _ hMv]
    have hry : reshape1 y = y := by
      rcases y with ⟨s, d⟩
      simp only at hys
      subst hys
      simp [reshape1]
    simp only [LeastSquares.flatten, flattenXY]
    rw [if_neg hc1, if_neg hc2, if_neg hc3, if_pos hc4, hrx, hry]
  · intro h1 h2
    have hc1 : ¬ (¬ (M.vars.length ∈ x.shape) ∧ x.shape.length ≠ 1) :=
      fun hc => hc.2 h1
    simp only [LeastSquares.flatten, flattenXY]
    rw [if_neg hc1, if_pos h1, if_neg (fun hne => hne h2)]
  · intro hdim hnA hnA1 hnB
    have hcases : x.shape = [] ∨ (∃ a, x.shape = [a]) ∨ ∃ a b, x.shape = [a, b] := by
      rcases hq : x.shape with _ | ⟨a, _ | ⟨b, _ | ⟨c, r⟩⟩⟩
      · exact Or.inl rfl
      · exact Or.inr (Or.inl ⟨a, rfl⟩)
      · exact Or.inr (Or.inr ⟨a, b, rfl⟩)
      · rw [hq] at hdim; simp at hdim
    rcases hcases with hs0 | ⟨a, hs1⟩ | ⟨a, b, hs2⟩
    · refine ⟨"number of vars does not match the shape of the input x data.", ?_⟩
      simp only [LeastSquares.flatten, flattenXY]
      rw [if_pos (by rw [hs0]; simp)]
    · have h1 : x.shape.length = 1 := by rw [hs1]; rfl
      have hc1 : ¬ (¬ (M.vars.length ∈ x.shape) ∧ x.shape.length ≠ 1) :=
        fun hc => hc.2 h1
      have hne : x.shape ≠ y.shape := fun he => hnB ⟨h1, he⟩
      refine ⟨"x and y must have the same shape.", ?_⟩
      simp only [LeastSquares.flatten, flattenXY]
      rw [if_neg hc1, if_pos h1, if_pos hne]
    · by_cases hmem : M.vars.length ∈ x.shape
      · have hc1 : ¬ (¬ (M.vars.length ∈ x.shape) ∧ x.shape.length ≠ 1) :=
          fun hc => hc.1 hmem
        have hc2 : ¬ (x.shape.length = 1) := by rw [hs2]; simp
        have hc3 : ¬ (lastElem x.shape = some M.vars.length ∧
            dropLastL x.shape = y.shape) := by
          rw [hs2]
          rintro ⟨hlast, hdrop⟩
          injection hlast with hlast
          subst hlast
          exact hnA ⟨a, hs2, by simpa [dropLastL] using hdrop.symm⟩
        have hc4 : ¬ (x.shape.head? = some M.vars.length ∧ x.shape.tail = y.shape) := by
          rw [hs2]
          rintro ⟨hhead, htail⟩
          injection hhead with hhead
          subst hhead
          exact hnA1 ⟨b, hs2, by simpa using htail.symm⟩
        refine ⟨"For multidimensional data, the first or the last dimension of xdata is expected to represent the different variables, and the shape of the remaining dimensions should match that of ydata.", ?_⟩
        simp only [LeastSquares.flatten, flattenXY]
        rw [if_neg hc1, if_neg hc2, if_neg hc3, if_neg hc4]
      · refine ⟨"number of vars does not match the shape of the input x data.", ?_⟩
        simp only [LeastSquares.flatten, flattenXY]
        rw [if_pos ⟨hmem, by rw [hs2]; simp⟩]

/-- C7 witness: already-flat one-dimensional data of matching shapes
passes through _flatten unchanged. -/
theorem C7_flatten_amended_witness :
    LeastSquares.flatten M1 x1d y1d = .ok (x1d, y1d) :=
  (C7_flatten_amended M1 x1d y1d rfl rfl).2.2.1 rfl rfl

end Symfit
